import Mathlib

/-!
# gtrello: GitHub push webhook to Trello comments

A shallow embedding of `src/default/util.go` and `src/default/trello.go`.

Go strings are byte sequences (`len` counts bytes, `bytes.Buffer.Truncate`
cuts bytes), so a string is a list of bytes here.  Calls into the Go standard
library and into the two imported packages (`cmsgparser`, `trello`) are
modelled by their documented behaviour or taken as parameters; logging
(`ctx.Debugf`, `ctx.Errorf`, `ctx.Infof`) has no effect on any result and is
left out.
-/

set_option autoImplicit false

namespace Gtrello

/-! ## Strings -/

/-- A byte: arithmetic on it is modulo 256, as for a Go uint8. -/
abbrev Byte := Fin 256

/-- A Go string: an immutable sequence of bytes. -/
abbrev GoString := List Byte

/-- The UTF-8 encoding of one character (utf8.EncodeRune). -/
def encodeRune (c : Char) : List Byte :=
  let n := c.toNat
  if n < 0x80 then [Fin.ofNat n]
  else if n < 0x800 then [Fin.ofNat (0xC0 + n / 64), Fin.ofNat (0x80 + n % 64)]
  else if n < 0x10000 then
    [Fin.ofNat (0xE0 + n / 4096), Fin.ofNat (0x80 + n / 64 % 64), Fin.ofNat (0x80 + n % 64)]
  else
    [Fin.ofNat (0xF0 + n / 262144), Fin.ofNat (0x80 + n / 4096 % 64),
      Fin.ofNat (0x80 + n / 64 % 64), Fin.ofNat (0x80 + n % 64)]

/-- The bytes of a string literal (UTF-8, as in Go source text). -/
def str (s : String) : GoString := s.data.flatMap encodeRune

/-- Error values.  Only their identity matters to the code under study. -/
inductive Error where
  /-- An error built by fmt.Errorf, carrying the formatted message. -/
  | errorf (msg : GoString)
  /-- The hex.InvalidByteError of encoding/hex. -/
  | hexInvalidByte (b : Byte)
  /-- The hex.ErrLength of encoding/hex. -/
  | hexErrLength
  /-- The datastore.ErrNoSuchEntity sentinel. -/
  | ErrNoSuchEntity
  /-- Any other error handed back by the datastore, the JSON decoder, the
  message parser or the Trello client. -/
  | external (code : Nat)
  deriving DecidableEq

/-! ### UTF-8 decoding and white space (unicode/utf8, unicode) -/

/-- The utf8.RuneError replacement rune. -/
def RuneError : Nat := 0xFFFD

/-- Continuation byte test: locb <= b <= hicb of unicode/utf8. -/
def inRange (lo hi : Nat) (b : Byte) : Bool := lo ≤ b.val && b.val ≤ hi

/-- The table first/acceptRanges of unicode/utf8 for a leading byte >= 0x80:
the encoded width and the accepted range of the second byte, or none for a
byte that cannot start a rune. -/
def firstByte (b : Byte) : Option (Nat × Nat × Nat) :=
  let x := b.val
  if x < 0xC2 then none
  else if x ≤ 0xDF then some (2, 0x80, 0xBF)
  else if x = 0xE0 then some (3, 0xA0, 0xBF)
  else if x ≤ 0xEC then some (3, 0x80, 0xBF)
  else if x = 0xED then some (3, 0x80, 0x9F)
  else if x ≤ 0xEF then some (3, 0x80, 0xBF)
  else if x = 0xF0 then some (4, 0x90, 0xBF)
  else if x ≤ 0xF3 then some (4, 0x80, 0xBF)
  else if x = 0xF4 then some (4, 0x80, 0x8F)
  else none

/-- The utf8.DecodeRuneInString function: the first rune of s and its width
in bytes; (RuneError, 0) for the empty string and (RuneError, 1) for an
invalid or truncated encoding. -/
def decodeRune (s : GoString) : Nat × Nat :=
  match s with
  | [] => (RuneError, 0)
  | s0 :: rest =>
    if s0.val < 0x80 then (s0.val, 1)
    else
      match firstByte s0 with
      | none => (RuneError, 1)
      | some (sz, lo, hi) =>
        if s.length < sz then (RuneError, 1)
        else
          match rest with
          | [] => (RuneError, 1)
          | s1 :: rest1 =>
            if !inRange lo hi s1 then (RuneError, 1)
            else if sz ≤ 2 then ((s0.val % 32) * 64 + s1.val % 64, 2)
            else
              match rest1 with
              | [] => (RuneError, 1)
              | s2 :: rest2 =>
                if !inRange 0x80 0xBF s2 then (RuneError, 1)
                else if sz ≤ 3 then
                  ((s0.val % 16) * 4096 + (s1.val % 64) * 64 + s2.val % 64, 3)
                else
                  match rest2 with
                  | [] => (RuneError, 1)
                  | s3 :: _ =>
                    if !inRange 0x80 0xBF s3 then (RuneError, 1)
                    else
                      ((s0.val % 8) * 262144 + (s1.val % 64) * 4096
                        + (s2.val % 64) * 64 + s3.val % 64, 4)

/-- The unicode.IsSpace predicate: the Latin-1 spaces and the other code
points with the White_Space property. -/
def isSpace (r : Nat) : Bool :=
  if r ≤ 0xFF then
    r = 0x09 || r = 0x0A || r = 0x0B || r = 0x0C || r = 0x0D || r = 0x20
      || r = 0x85 || r = 0xA0
  else
    r = 0x1680 || (0x2000 ≤ r && r ≤ 0x200A) || r = 0x2028 || r = 0x2029
      || r = 0x202F || r = 0x205F || r = 0x3000

/-- The runes of a string in order, each with the bytes that encode it, read
with decodeRune the way a Go range loop does; the first argument bounds the
number of runes and is the byte length in every use. -/
def decodeRunes : Nat → GoString → List (Nat × GoString)
  | 0, _ => []
  | fuel + 1, s =>
    match s with
    | [] => []
    | _ :: _ =>
      let d := decodeRune s
      (d.1, s.take d.2) :: decodeRunes fuel (s.drop d.2)

/-- The runes of a string, each with its encoding. -/
def runes (s : GoString) : List (Nat × GoString) := decodeRunes s.length s

/-- The strings.TrimSpace function, per its documentation: s with all
leading and trailing white space removed, as defined by Unicode. -/
def TrimSpace (s : GoString) : GoString :=
  let rs := (runes s).dropWhile (fun p => isSpace p.1)
  let kept := (rs.reverse.dropWhile (fun p => isSpace p.1)).reverse
  kept.flatMap (fun p => p.2)

/-- The strings.Split function for the one-byte separators this program
uses ("=" and "/"): the substrings between the separators, of which there is
always at least one. -/
def Split (s : GoString) (sep : Byte) : List GoString :=
  match s with
  | [] => [[]]
  | c :: cs =>
    if c = sep then [] :: Split cs sep
    else
      match Split cs sep with
      | [] => [[c]]
      | p :: ps => (c :: p) :: ps

/-! ### encoding/hex -/

/-- The fromHexChar function of encoding/hex: the value of a hex digit. -/
def fromHexChar (c : Byte) : Option Byte :=
  if 0x30 ≤ c.val ∧ c.val ≤ 0x39 then some (c - 0x30)
  else if 0x61 ≤ c.val ∧ c.val ≤ 0x66 then some (c - 0x61 + 10)
  else if 0x41 ≤ c.val ∧ c.val ≤ 0x46 then some (c - 0x41 + 10)
  else none

/-- The hex.DecodeString function: pairs of hex digits to bytes; an invalid
digit or an odd length is an error.  The byte slice Go hands back next to an
error is not modelled (the caller drops it). -/
def hexDecodeString : GoString → Except Error (List Byte)
  | [] => .ok []
  | [p] =>
    match fromHexChar p with
    | none => .error (.hexInvalidByte p)
    | some _ => .error .hexErrLength
  | p :: q :: rest =>
    match fromHexChar p, fromHexChar q with
    | none, _ => .error (.hexInvalidByte p)
    | some _, none => .error (.hexInvalidByte q)
    | some a, some b =>
      match hexDecodeString rest with
      | .error e => .error e
      | .ok bs => .ok (((a <<< 4) ||| b) :: bs)

/-! ## util.go -/

/-- Go: isValidStr.  The address of a local is never nil, so the only
operative test is that the trimmed string is not empty. -/
def isValidStr (s : GoString) : Bool :=
  if TrimSpace s ≠ [] then true else false

/-- Go: parseSignature. -/
def parseSignature (raw : GoString) : Except Error (List Byte) :=
  if !isValidStr raw then
    .error (.errorf (str "empty signature"))
  else
    let sary := Split raw 0x3D
    if sary.length ≠ 2 then
      .error (.errorf (str "malformated signature " ++ [0x22] ++ raw ++ [0x22]))
    else if sary.getD 0 [] ≠ str "sha1" then
      .error (.errorf (str "only sha1 supported got " ++ [0x22] ++ sary.getD 0 [] ++ [0x22]))
    else
      hexDecodeString (sary.getD 1 [])

/-- Go: getCardId. -/
def getCardId (url : GoString) : GoString :=
  let sary := Split url 0x2F
  let idx : Int := (sary.length : Int) - 1
  if idx < 1 then []
  else sary.getD idx.toNat []

/-! ## trello.go: data -/

/-- Go: cfg, the process-wide configuration read from config.json. -/
structure Config where
  Key : GoString
  Token : GoString
  GithubSecret : GoString
  MaxCommentSize : Int
  Admins : List GoString

/-- Go: Author. -/
structure Author where
  Name : GoString
  Username : GoString
  Email : GoString
  deriving DecidableEq

/-- Go: Commit. -/
structure Commit where
  Id : GoString
  Message : GoString
  Timestamp : GoString
  Url : GoString
  Added : List GoString
  Removed : List GoString
  Modified : List GoString
  Author : Gtrello.Author
  Committer : Gtrello.Author
  Distinct : Bool
  deriving DecidableEq

/-- Go: Payload (the interface-typed fields, which nothing reads, left out). -/
structure Payload where
  Before : GoString
  After : GoString
  Ref : GoString
  Commits : List Commit

/-- Go: TrelloComment, the datastore record of a posted comment. -/
structure TrelloComment where
  Result : GoString
  deriving DecidableEq

/-- Go: GithubPayload (the creation time, which nothing reads, left out). -/
structure GithubPayload where
  Payload : List Byte

/-- The node types of cmsgparser the program tests for, and any other. -/
inductive NodeType where
  | TextNode
  | LinkNode
  | OtherNode
  deriving DecidableEq

/-- The cmsgparser Node: a type tag, a value and the child nodes. -/
inductive Node where
  | mk (typ : NodeType) (Value : GoString) (children : List Node)

/-- Go: the Type field of a node. -/
def Node.typ : Node → NodeType
  | .mk t _ _ => t

/-- Go: the Value field of a node. -/
def Node.Value : Node → GoString
  | .mk _ v _ => v

/-- Go: the Children method of a node. -/
def Node.Children : Node → List Node
  | .mk _ _ cs => cs

/-! ## bytes.Buffer -/

/-- A run-time panic raised by bytes.Buffer. -/
inductive Panic where
  /-- Grow called with a negative count. -/
  | growNegativeCount
  /-- Truncate called with n < 0 or n > Len. -/
  | truncationOutOfRange
  /-- The bytes.ErrTooLarge panic: memory cannot be allocated to store data
  in a buffer. -/
  | ErrTooLarge
  deriving DecidableEq

/-- A bytes.Buffer that is only written to: its unread bytes. -/
structure Buffer where
  buf : GoString

/-- Go: Buffer.Len. -/
def Buffer.Len (b : Buffer) : Int := (b.buf.length : Int)

/-- Go: Buffer.Grow, which makes room for n more bytes and leaves the
contents alone.  It panics on a negative count, and with ErrTooLarge when the
buffer cannot grow: when the Len + n bytes to make room for are more than
maxAlloc, the most bytes the runtime can allocate for one slice (never more
than the limit beyond which make panics, 1 << 48 on linux/amd64). -/
def Buffer.Grow (maxAlloc : Nat) (b : Buffer) (n : Int) : Except Panic Buffer :=
  if n < 0 then .error .growNegativeCount
  else if b.Len + n > (maxAlloc : Int) then .error .ErrTooLarge
  else .ok b

/-- Go: Buffer.WriteString.  The ErrTooLarge panic of a write is not
modelled: a write asks for room for bytes the process already holds in a
string, whereas Grow asks for a count that no data backs. -/
def Buffer.WriteString (b : Buffer) (s : GoString) : Buffer := ⟨b.buf ++ s⟩

/-- Go: Buffer.Truncate, which keeps the first n bytes and panics when n is
negative or greater than the length of the buffer. -/
def Buffer.Truncate (b : Buffer) (n : Int) : Except Panic Buffer :=
  if n = 0 then .ok ⟨[]⟩
  else if n < 0 ∨ n > b.Len then .error .truncationOutOfRange
  else .ok ⟨b.buf.take n.toNat⟩

/-- Go: Buffer.String. -/
def Buffer.String (b : Buffer) : GoString := b.buf

/-! ## trello.go: processGithubPayload and processCommit -/

/-- The arguments of one actionCardLater.Call: the deferred actionCard job. -/
structure Task where
  link : Node
  comment : GoString
  url : GoString
  children : List Node

/-- How a call ends: it returns (nil or an error) or it panics. -/
inductive Outcome where
  | returned (err : Option Error)
  | panicked (p : Panic)
  deriving DecidableEq

/-- Lines 200-218 of processCommit: the comment buffer built for a commit
from the children of the parsed root. -/
def commentBuf (maxAlloc : Nat) (cfg : Config) (c : Commit) (root : Node) :
    Except Panic Buffer :=
  match (Buffer.mk []).Grow maxAlloc cfg.MaxCommentSize with
  | .error p => .error p
  | .ok b0 =>
    let b1 := b0.WriteString c.Author.Name
    let b2 := b1.WriteString [0x0A]
    let b3 := root.Children.foldl
      (fun b v => if v.typ = NodeType.TextNode then b.WriteString v.Value else b) b2
    let maxBufLen : Int := cfg.MaxCommentSize - ((c.Url.length : Int) + 1)
    match (if b3.Len > maxBufLen then b3.Truncate maxBufLen else .ok b3) with
    | .error p => .error p
    | .ok b4 =>
      let b5 := b4.WriteString [0x0A]
      .ok (b5.WriteString c.Url)

/-- Lines 220-224 of processCommit: one deferred job per Link node among the
children of the root. -/
def dispatchLinks (comment url : GoString) (nodes : List Node) : List Task :=
  nodes.foldl
    (fun acc v =>
      if v.typ = NodeType.LinkNode then acc ++ [Task.mk v comment url v.Children] else acc)
    []

/-- Go: processCommit, with the allocation limit of the runtime and the
parser cm.Parse as parameters.  The result is how the call ends and the jobs
handed to actionCardLater, in order. -/
def processCommit (maxAlloc : Nat) (cfg : Config) (parse : GoString → Except Error Node)
    (c : Commit) : Outcome × List Task :=
  match parse c.Message with
  | .error err => (.returned (some err), [])
  | .ok root =>
    match commentBuf maxAlloc cfg c root with
    | .error p => (.panicked p, [])
    | .ok commentBuf => (.returned none, dispatchLinks commentBuf.String c.Url root.Children)

/-- What processGithubPayload does that can be seen from outside. -/
inductive Event where
  /-- A call of processCommit for a commit. -/
  | processCommit (c : Commit)
  /-- A job handed to actionCardLater. -/
  | actionCardLater (t : Task)

/-- The first loop of processGithubPayload: the error for the first commit
with a url, author name or message that is not a valid string. -/
def checkCommits : List Commit → Option Error
  | [] => none
  | c :: rest =>
    let url := c.Url
    let author := c.Author.Name
    let msg := c.Message
    if isValidStr url = false ∨ isValidStr author = false ∨ isValidStr msg = false then
      some (.errorf (str "missing proper fields url:" ++ url ++ str ", message:" ++ author
        ++ str ", author_name:" ++ msg))
    else checkCommits rest

/-- The second loop of processGithubPayload: processCommit for each commit in
order, stopping at the first that fails. -/
def processCommits (maxAlloc : Nat) (cfg : Config) (parse : GoString → Except Error Node) :
    List Commit → Outcome × List Event
  | [] => (.returned none, [])
  | c :: rest =>
    let r := processCommit maxAlloc cfg parse c
    let evs := Event.processCommit c :: r.2.map Event.actionCardLater
    match r.1 with
    | .returned none =>
      let r2 := processCommits maxAlloc cfg parse rest
      (r2.1, evs ++ r2.2)
    | out => (out, evs)

/-- Go: processGithubPayload, with the allocation limit of the runtime,
json.Unmarshal into a Payload and the parser cm.Parse as parameters. -/
def processGithubPayload (maxAlloc : Nat) (cfg : Config)
    (unmarshal : List Byte → Except Error Payload) (parse : GoString → Except Error Node)
    (g : GithubPayload) : Outcome × List Event :=
  match unmarshal g.Payload with
  | .error err => (.returned (some err), [])
  | .ok p =>
    match checkCommits p.Commits with
    | some err => (.returned (some err), [])
    | none => processCommits maxAlloc cfg parse p.Commits

/-! ## trello.go: actionCard -/

/-- What the datastore holds under a TrelloComment key: a record, or
something that Get answers with an error. -/
inductive Stored where
  | entity (ent : TrelloComment)
  | failing (err : Error)

/-- The TrelloComment kind of the datastore, by the string id of the key. -/
abbrev Store := GoString → Option Stored

/-- Go: datastore.Get into a zero TrelloComment: the entity afterwards and
the error; a missing key leaves the entity zero and gives ErrNoSuchEntity. -/
def datastoreGet (store : Store) (key : GoString) : TrelloComment × Option Error :=
  match store key with
  | none => (⟨[]⟩, some .ErrNoSuchEntity)
  | some (.entity ent) => (ent, none)
  | some (.failing err) => (⟨[]⟩, some err)

/-- The store after a successful datastore.Put of ent under key. -/
def storePut (store : Store) (key : GoString) (ent : TrelloComment) : Store :=
  fun k => if k = key then some (.entity ent) else store k

/-- A Trello card as the client returns it. -/
structure Card where
  Id : GoString
  IdBoard : GoString

/-- A Trello board as the client returns it. -/
structure Board where
  Id : GoString

/-- A Trello list as the client returns it (tapi.List). -/
structure TList where
  Id : GoString
  Name : GoString

/-- The outside world of one actionCard run: what each call of the Trello
client and the datastore write answer. -/
structure World where
  CommentPost : GoString → GoString → Option Error
  CardGet : GoString → Except Error Card
  BoardGet : GoString → Except Error Board
  BoardListsGet : GoString → Except Error (List TList)
  CardListPut : GoString → GoString → Option Error
  datastorePut : GoString → TrelloComment → Option Error

/-- A call of the Trello client, with its arguments. -/
inductive Call where
  | CommentPost (cardId comment : GoString)
  | CardGet (cardId : GoString)
  | BoardGet (boardId : GoString)
  | BoardListsGet (boardId : GoString)
  | CardListPut (cardId listId : GoString)
  deriving DecidableEq

/-- The result of one actionCard run: the returned error, the store
afterwards and the Trello calls made, in order. -/
structure Run where
  err : Option Error
  store : Store
  calls : List Call

/-- Go: actionCard. -/
def actionCard (w : World) (store : Store) (link : Node) (comment url : GoString)
    (children : List Node) : Run :=
  let tcKey := link.Value ++ url
  let got := datastoreGet store tcKey
  let ent := got.1
  let geterr := got.2
  if geterr ≠ none ∧ geterr ≠ some Error.ErrNoSuchEntity then ⟨geterr, store, []⟩
  else
    if ent.Result.length > 0 then ⟨none, store, []⟩
    else
      let cardId := getCardId link.Value
      let c1 := [Call.CommentPost cardId comment]
      match w.CommentPost cardId comment with
      | some err => ⟨some err, store, c1⟩
      | none =>
        let ent2 : TrelloComment := ⟨str "OK"⟩
        match w.datastorePut tcKey ent2 with
        | some _ => ⟨none, store, c1⟩
        | none =>
          let store2 := storePut store tcKey ent2
          match children with
          | [] => ⟨none, store2, c1⟩
          | moveToNode :: _ =>
            let c2 := c1 ++ [Call.CardGet cardId]
            match w.CardGet cardId with
            | .error _ => ⟨none, store2, c2⟩
            | .ok card =>
              let c3 := c2 ++ [Call.BoardGet card.IdBoard]
              match w.BoardGet card.IdBoard with
              | .error _ => ⟨none, store2, c3⟩
              | .ok board =>
                let c4 := c3 ++ [Call.BoardListsGet board.Id]
                match w.BoardListsGet board.Id with
                | .error _ => ⟨none, store2, c4⟩
                | .ok lists =>
                  match lists.find? (fun l => l.Name = moveToNode.Value) with
                  | none => ⟨none, store2, c4⟩
                  | some destList =>
                    let c5 := c4 ++ [Call.CardListPut card.Id destList.Id]
                    match w.CardListPut card.Id destList.Id with
                    | some _ => ⟨none, store2, c5⟩
                    | none => ⟨none, store2, c5⟩

/-! ## Specification-side notions for util.go -/

/-- Spec: a string is blank when it is empty or consists of white space only,
that is, every rune of it is a white-space rune. -/
def specBlank (s : GoString) : Bool := (runes s).all (fun p => isSpace p.1)

/-- Spec: the value of a hex digit (0-9, a-f, A-F), none for any other byte. -/
def specHexDigit (c : Byte) : Option Nat :=
  if 0x30 ≤ c.val ∧ c.val ≤ 0x39 then some (c.val - 0x30)
  else if 0x61 ≤ c.val ∧ c.val ≤ 0x66 then some (c.val - 0x61 + 10)
  else if 0x41 ≤ c.val ∧ c.val ≤ 0x46 then some (c.val - 0x41 + 10)
  else none

/-- Spec: a hex string has hex digits only and an even length. -/
def specIsHexString (p : GoString) : Bool :=
  p.all (fun c => (specHexDigit c).isSome) && p.length % 2 == 0

/-- Spec: the bytes a hex string decodes to, one byte 16 * hi + lo for each
pair of digits. -/
def specHexBytes : GoString → List Byte
  | p :: q :: rest =>
    Fin.ofNat (16 * (specHexDigit p).getD 0 + (specHexDigit q).getD 0) :: specHexBytes rest
  | _ => []

/-! ## Specification-side notions for trello.go -/

/-- Spec: the values, concatenated in order, of the Text nodes of a node
list; a Link node (and any other node) contributes nothing. -/
def specTextValues : List Node → GoString
  | [] => []
  | v :: rest =>
    (match v.typ with
      | .TextNode => v.Value
      | _ => []) ++ specTextValues rest

/-- Spec: the comment of a commit: B = author name, newline, text values; T =
the first maxBody bytes of B when B is longer than maxBody = maxCommentSize -
(len(url) + 1), else B; the comment is T, newline, url. -/
def specComment (cfg : Config) (c : Commit) (root : Node) : GoString :=
  let B := c.Author.Name ++ [0x0A] ++ specTextValues root.Children
  let maxBody : Int := cfg.MaxCommentSize - ((c.Url.length : Int) + 1)
  let T := if (B.length : Int) > maxBody then B.take maxBody.toNat else B
  T ++ [0x0A] ++ c.Url

/-- Spec: an Action, the unit of work derived from one link of a commit. -/
structure Action where
  targetRef : GoString
  commentBody : GoString
  sourceUrl : GoString
  moveToName : Option GoString
  deriving DecidableEq

/-- The Action a deferred actionCard job stands for: actionCard reads the
target off the link node and the list to move to off the first of the
children handed over, when there is one. -/
def actionOf (t : Task) : Action :=
  ⟨t.link.Value, t.comment, t.url, t.children.head?.map Node.Value⟩

mutual
/-- Spec: every Link node of a tree, the node itself and the nodes nested
beneath it included, in document order. -/
def specLinksOf : Node → List Node
  | .mk t v cs => (if t = NodeType.LinkNode then [Node.mk t v cs] else []) ++ specLinksOfList cs
/-- Spec: every Link node of a list of trees, in document order. -/
def specLinksOfList : List Node → List Node
  | [] => []
  | v :: rest => specLinksOf v ++ specLinksOfList rest
end

/-- Spec: the number of comment-post calls among the Trello calls made. -/
def specCommentPosts (calls : List Call) : Nat :=
  calls.countP (fun c => match c with
    | .CommentPost _ _ => true
    | _ => false)

/-- Spec: the number of move calls (CardListPut) among the Trello calls made. -/
def specMoves (calls : List Call) : Nat :=
  calls.countP (fun c => match c with
    | .CardListPut _ _ => true
    | _ => false)

/-! ## Concrete inputs used by the examples -/

/-- An author of whom only the name is set. -/
def exAuthor (name : GoString) : Author := ⟨name, [], []⟩

/-- A commit of which only message, url and author name are set. -/
def exCommit (message url author : GoString) : Commit :=
  ⟨[], message, [], url, [], [], [], exAuthor author, exAuthor [], false⟩

/-- A configuration of which only MaxCommentSize is set. -/
def exCfg (maxCommentSize : Int) : Config := ⟨[], [], [], maxCommentSize, []⟩

/-- The commit of the end-to-end scenario. -/
def exCommitAnn : Commit := exCommit (str "Fixed it [CARD-1](Done)") (str "http://x/1") (str "Ann")

/-- The parse tree of the end-to-end scenario: a text node, then a link to
CARD-1 with the one child Done. -/
def exRootAnn : Node :=
  .mk .OtherNode [] [
    .mk .TextNode (str "Fixed it ") [],
    .mk .LinkNode (str "CARD-1") [.mk .TextNode (str "Done") []]]

/-- A commit with a url of 20 bytes. -/
def exCommitLong : Commit :=
  exCommit (str "a long message that goes on and on and on") (str "http://example.com/1")
    (str "Ann")

/-- A parse tree of one long text node. -/
def exRootLong : Node :=
  .mk .OtherNode [] [.mk .TextNode (str "a long message that goes on and on and on") []]

/-- A parse tree with a link nested beneath a link. -/
def exRootNested : Node :=
  .mk .OtherNode [] [.mk .LinkNode (str "A") [.mk .LinkNode (str "B") []]]

/-- A batch of three commits of which the second has an empty author name. -/
def exBatch : Payload :=
  ⟨[], [], [], [
    exCommit (str "one [A](Done)") (str "http://x/1") (str "Ann"),
    exCommit (str "two [B](Done)") (str "http://x/2") [],
    exCommit (str "three [C](Done)") (str "http://x/3") (str "Cy")]⟩

/-- A world in which every call succeeds; the board has the lists Todo and
Done. -/
def exWorldOk : World where
  CommentPost := fun _ _ => none
  CardGet := fun cardId => .ok ⟨cardId, str "board-1"⟩
  BoardGet := fun boardId => .ok ⟨boardId⟩
  BoardListsGet := fun _ => .ok [⟨str "list-1", str "Todo"⟩, ⟨str "list-2", str "Done"⟩]
  CardListPut := fun _ _ => none
  datastorePut := fun _ _ => none

/-- A world in which the comment post fails. -/
def exWorldPostFails : World :=
  { exWorldOk with CommentPost := fun _ _ => some (.external 1) }

/-- A world in which the comment post succeeds and every later call fails. -/
def exWorldMoveFails : World :=
  { exWorldOk with
    CardGet := fun _ => .error (.external 2) }

/-- The largest allocation limit of a Go runtime: 1 << 48 bytes, as on
linux/amd64. -/
def exMaxAlloc : Nat := 281474976710656

/-- A configuration with MaxCommentSize = 1 << 62. -/
def exCfgHuge : Config := exCfg 4611686018427387904

/-- The store with no record at all. -/
def exStoreEmpty : Store := fun _ => none

/-- The link node of the end-to-end scenario. -/
def exLinkCard1 : Node := .mk .LinkNode (str "CARD-1") [.mk .TextNode (str "Done") []]

/-- The comment of the end-to-end scenario. -/
def exCommentAnn : GoString :=
  str "Ann" ++ [0x0A] ++ str "Fixed it " ++ [0x0A] ++ str "http://x/1"

/-! ## Lemmas: util.go -/

set_option maxRecDepth 100000 in
theorem fromHexChar_value : ∀ c : Byte, (fromHexChar c).map Fin.val = specHexDigit c := by
  decide

theorem specHexDigit_lt (c : Byte) (v : Nat) (h : specHexDigit c = some v) : v < 16 := by
  unfold specHexDigit at h
  split_ifs at h <;> simp at h <;> omega

theorem nibbles : ∀ a b : Fin 16,
    (((Fin.ofNat a.val : Byte) <<< 4) ||| (Fin.ofNat b.val : Byte)) = Fin.ofNat (16 * a.val + b.val) := by
  decide

theorem shift_or (a b : Byte) (ha : a.val < 16) (hb : b.val < 16) :
    ((a <<< 4) ||| b) = Fin.ofNat (16 * a.val + b.val) := by
  have h := nibbles ⟨a.val, ha⟩ ⟨b.val, hb⟩
  have e1 : (Fin.ofNat a.val : Byte) = a := by
    apply Fin.ext; simp [Fin.ofNat]
  have e2 : (Fin.ofNat b.val : Byte) = b := by
    apply Fin.ext; simp [Fin.ofNat]
  simpa [e1, e2] using h

theorem fromHexChar_some (c : Byte) (v : Nat) (h : specHexDigit c = some v) :
    ∃ a, fromHexChar c = some a ∧ a.val = v := by
  have := fromHexChar_value c
  rw [h] at this
  cases hc : fromHexChar c with
  | none => simp [hc] at this
  | some a => exact ⟨a, rfl, by simpa [hc] using this⟩

theorem fromHexChar_none (c : Byte) (h : specHexDigit c = none) : fromHexChar c = none := by
  have := fromHexChar_value c
  rw [h] at this
  simpa using this

theorem hexDecodeString_ok : ∀ p : GoString, specIsHexString p = true →
    hexDecodeString p = .ok (specHexBytes p)
  | [], _ => rfl
  | [c], h => by simp [specIsHexString] at h
  | c :: d :: rest, h => by
    have hrest : specIsHexString rest = true := by
      simp [specIsHexString] at h ⊢
      refine ⟨h.1.2.2, ?_⟩
      omega
    have hc : (specHexDigit c).isSome := by simp [specIsHexString] at h; exact h.1.1
    have hd : (specHexDigit d).isSome := by simp [specIsHexString] at h; exact h.1.2.1
    obtain ⟨vc, hvc⟩ := Option.isSome_iff_exists.mp hc
    obtain ⟨vd, hvd⟩ := Option.isSome_iff_exists.mp hd
    obtain ⟨a, ha, hav⟩ := fromHexChar_some c vc hvc
    obtain ⟨b, hb, hbv⟩ := fromHexChar_some d vd hvd
    have ih := hexDecodeString_ok rest hrest
    have hlt1 := specHexDigit_lt c vc hvc
    have hlt2 := specHexDigit_lt d vd hvd
    simp only [hexDecodeString, ha, hb, ih, specHexBytes, hvc, hvd, Option.getD_some]
    rw [shift_or a b (by omega) (by omega), hav, hbv]

theorem hexDecodeString_error : ∀ p : GoString, specIsHexString p = false →
    ∃ e, hexDecodeString p = .error e
  | [], h => by simp [specIsHexString] at h
  | [c], _ => by
    simp only [hexDecodeString]
    cases fromHexChar c <;> simp
  | c :: d :: rest, h => by
    cases hc : specHexDigit c with
    | none => simp [hexDecodeString, fromHexChar_none c hc]
    | some vc =>
      obtain ⟨a, ha, -⟩ := fromHexChar_some c vc hc
      cases hd : specHexDigit d with
      | none => simp [hexDecodeString, ha, fromHexChar_none d hd]
      | some vd =>
        obtain ⟨b, hb, -⟩ := fromHexChar_some d vd hd
        have hrest : specIsHexString rest = false := by
          by_contra hne
          have ht : specIsHexString rest = true := by simpa using hne
          have : specIsHexString (c :: d :: rest) = true := by
            simp [specIsHexString] at ht ⊢
            refine ⟨⟨by simp [hc], by simp [hd], ht.1⟩, ?_⟩
            omega
          rw [this] at h
          exact absurd h (by simp)
        obtain ⟨e, he⟩ := hexDecodeString_error rest hrest
        exact ⟨e, by simp [hexDecodeString, ha, hb, he]⟩

theorem decodeRune_width_pos (s : GoString) (h : s ≠ []) : 1 ≤ (decodeRune s).2 := by
  unfold decodeRune
  repeat' split
  all_goals first | omega | simp_all

theorem decodeRunes_segment_ne_nil (fuel : Nat) : ∀ (s : GoString),
    ∀ p ∈ decodeRunes fuel s, p.2 ≠ [] := by
  induction fuel with
  | zero => intro s p hp; simp [decodeRunes] at hp
  | succ n ih =>
    intro s p hp
    cases s with
    | nil => simp [decodeRunes] at hp
    | cons c cs =>
      simp only [decodeRunes, List.mem_cons] at hp
      rcases hp with rfl | hp
      · have := decodeRune_width_pos (c :: cs) (by simp)
        simp only [ne_eq, List.take_eq_nil_iff, not_or]
        exact ⟨by omega, by simp⟩
      · exact ih _ p hp

theorem TrimSpace_eq_nil_iff (s : GoString) : TrimSpace s = [] ↔ specBlank s = true := by
  unfold TrimSpace specBlank
  simp only [List.flatMap_eq_nil_iff, List.mem_reverse, List.all_eq_true]
  constructor
  · intro h
    have hk : (List.dropWhile (fun p => isSpace p.1)
        (List.dropWhile (fun p => isSpace p.1) (runes s)).reverse) = [] := by
      cases hl : (List.dropWhile (fun p => isSpace p.1)
        (List.dropWhile (fun p => isSpace p.1) (runes s)).reverse) with
      | nil => rfl
      | cons x xs =>
        exfalso
        have hx : x ∈ (List.dropWhile (fun p => isSpace p.1)
          (List.dropWhile (fun p => isSpace p.1) (runes s)).reverse) := by rw [hl]; simp
        have hx2 : x ∈ runes s :=
          (List.dropWhile_sublist _).subset (List.mem_reverse.mp ((List.dropWhile_sublist _).subset hx))
        exact decodeRunes_segment_ne_nil _ _ x hx2 (h x hx)
    rw [List.dropWhile_eq_nil_iff] at hk
    cases hd : List.dropWhile (fun p => isSpace p.1) (runes s) with
    | nil => exact List.dropWhile_eq_nil_iff.mp hd
    | cons y ys =>
      exfalso
      have hy := hk y (by rw [hd]; simp)
      have := List.head_dropWhile_not (fun p => isSpace p.1) (runes s) (by rw [hd]; simp)
      simp [hd] at this
      simp [this] at hy
  · intro h x hx
    have hd : List.dropWhile (fun p => isSpace p.1) (runes s) = [] :=
      List.dropWhile_eq_nil_iff.mpr h
    simp [hd] at hx

theorem isValidStr_eq_false_iff (s : GoString) : isValidStr s = false ↔ specBlank s = true := by
  unfold isValidStr
  rw [← TrimSpace_eq_nil_iff]
  by_cases h : TrimSpace s = [] <;> simp [h]

theorem Split_length (sep : Byte) : ∀ s : GoString, (Split s sep).length = s.count sep + 1
  | [] => by simp [Split]
  | c :: cs => by
    have ih := Split_length sep cs
    by_cases h : c = sep
    · subst h
      simp [Split, ih]
    · have hne : (c == sep) = false := by simpa using h
      cases hs : Split cs sep with
      | nil => rw [hs] at ih; simp at ih
      | cons p ps =>
        rw [hs] at ih
        simp only [Split, h, if_false, hs, List.length_cons, List.count_cons, hne] at ih ⊢
        simpa using ih

/-- C9: parseSignature returns an error exactly when the header is blank, or
splitting it on "=" does not give two parts, or the first part is not "sha1",
or the second part is not a hex string; in every other case it returns the
bytes the second part hex-decodes to. -/
theorem parseSignature_error_iff (raw : GoString) :
    ((∃ e, parseSignature raw = .error e) ↔
      (specBlank raw = true ∨ (Split raw 0x3D).length ≠ 2
        ∨ (Split raw 0x3D).getD 0 [] ≠ str "sha1"
        ∨ specIsHexString ((Split raw 0x3D).getD 1 []) = false))
    ∧ (¬ (specBlank raw = true ∨ (Split raw 0x3D).length ≠ 2
        ∨ (Split raw 0x3D).getD 0 [] ≠ str "sha1"
        ∨ specIsHexString ((Split raw 0x3D).getD 1 []) = false) →
      parseSignature raw = .ok (specHexBytes ((Split raw 0x3D).getD 1 []))) := by
  have key : ¬ (specBlank raw = true ∨ (Split raw 0x3D).length ≠ 2
        ∨ (Split raw 0x3D).getD 0 [] ≠ str "sha1"
        ∨ specIsHexString ((Split raw 0x3D).getD 1 []) = false) →
      parseSignature raw = .ok (specHexBytes ((Split raw 0x3D).getD 1 [])) := by
    intro h
    simp only [not_or, not_not, Bool.not_eq_false] at h
    obtain ⟨h1, h2, h3, h4⟩ := h
    have hv : isValidStr raw = true := by
      cases hq : isValidStr raw with
      | true => rfl
      | false => exact absurd ((isValidStr_eq_false_iff raw).mp hq) h1
    simp only [parseSignature, hv, h2, h3, Bool.not_true, ne_eq, not_true_eq_false, if_false,
      Bool.false_eq_true]
    exact hexDecodeString_ok _ h4
  refine ⟨⟨?_, ?_⟩, key⟩
  · rintro ⟨e, he⟩
    by_contra hc
    rw [key hc] at he
    exact absurd he (by simp)
  · intro h
    by_cases hv : isValidStr raw = false
    · exact ⟨_, by simp only [parseSignature, hv, Bool.not_false, if_true]; rfl⟩
    · have hv2 : isValidStr raw = true := by simpa using hv
      have hnb : ¬ specBlank raw = true := fun hb => hv ((isValidStr_eq_false_iff raw).mpr hb)
      by_cases h2 : (Split raw 0x3D).length ≠ 2
      · exact ⟨_, by simp only [parseSignature, hv2, Bool.not_true, Bool.false_eq_true, if_false]; rw [if_pos h2]⟩
      · by_cases h3 : (Split raw 0x3D).getD 0 [] ≠ str "sha1"
        · exact ⟨_, by simp only [parseSignature, hv2, Bool.not_true, Bool.false_eq_true, if_false]; rw [if_neg h2, if_pos h3]⟩
        · have h4 : specIsHexString ((Split raw 0x3D).getD 1 []) = false := by
            rcases h with h | h | h | h
            · exact absurd h hnb
            · exact absurd h h2
            · exact absurd h h3
            · exact h
          obtain ⟨e, he⟩ := hexDecodeString_error _ h4
          exact ⟨e, by simp only [parseSignature, hv2, Bool.not_true, Bool.false_eq_true, if_false]; rw [if_neg h2, if_neg h3, he]⟩

/-- C9, witness: the header sha1=0566101a3c64b9aad1f0352f10082df504d0d442
parses to the 20 bytes 05 66 10 ... d4 42. -/
theorem parseSignature_error_iff_witness :
    parseSignature (str "sha1=0566101a3c64b9aad1f0352f10082df504d0d442") =
      .ok [0x05, 0x66, 0x10, 0x1a, 0x3c, 0x64, 0xb9, 0xaa, 0xd1, 0xf0, 0x35, 0x2f, 0x10, 0x08,
        0x2d, 0xf5, 0x04, 0xd0, 0xd4, 0x42] :=
  ((parseSignature_error_iff (str "sha1=0566101a3c64b9aad1f0352f10082df504d0d442")).2
    (by decide)).trans (congrArg Except.ok (by decide))

/-! ## Lemmas: processCommit -/

theorem foldl_WriteString (nodes : List Node) : ∀ b : Buffer,
    (nodes.foldl (fun b v => if v.typ = NodeType.TextNode then b.WriteString v.Value else b) b).buf
      = b.buf ++ specTextValues nodes := by
  induction nodes with
  | nil => intro b; simp [specTextValues]
  | cons v rest ih =>
    intro b
    rw [List.foldl_cons, ih]
    cases hv : v.typ <;> simp [specTextValues, hv, Buffer.WriteString]

theorem Grow_empty_ok (maxAlloc : Nat) (n : Int) (h0 : 0 ≤ n) (h : n ≤ (maxAlloc : Int)) :
    (Buffer.mk []).Grow maxAlloc n = .ok (Buffer.mk []) := by
  have hg : ¬ n < 0 := by omega
  have hl : ¬ ((Buffer.mk []).Len + n > (maxAlloc : Int)) := by
    simp only [Buffer.Len, List.length_nil]
    omega
  simp only [Buffer.Grow, if_neg hg, if_neg hl]

theorem commentBuf_eq (maxAlloc : Nat) (cfg : Config) (c : Commit) (root : Node)
    (h : cfg.MaxCommentSize ≥ (c.Url.length : Int) + 1)
    (halloc : cfg.MaxCommentSize ≤ (maxAlloc : Int)) :
    commentBuf maxAlloc cfg c root = .ok ⟨specComment cfg c root⟩ := by
  have hb := foldl_WriteString root.Children
    (((Buffer.mk []).WriteString c.Author.Name).WriteString [0x0A])
  unfold commentBuf
  simp only [Grow_empty_ok maxAlloc cfg.MaxCommentSize (by omega) halloc]
  generalize List.foldl
    (fun b v => if v.typ = NodeType.TextNode then b.WriteString v.Value else b)
    (((Buffer.mk []).WriteString c.Author.Name).WriteString [0x0A]) root.Children = b3 at hb ⊢
  obtain ⟨buf⟩ := b3
  simp only [Buffer.WriteString, List.nil_append] at hb
  subst hb
  simp only [Buffer.Len, Buffer.WriteString, specComment, List.append_assoc]
  by_cases hlen : ((c.Author.Name ++ ([0x0A] ++ specTextValues root.Children)).length : Int)
      > cfg.MaxCommentSize - ((c.Url.length : Int) + 1)
  · rw [if_pos hlen, if_pos hlen]
    unfold Buffer.Truncate
    by_cases h0 : cfg.MaxCommentSize - ((c.Url.length : Int) + 1) = 0
    · simp [h0]
    · have hnn : ¬ (cfg.MaxCommentSize - ((c.Url.length : Int) + 1) < 0 ∨
          cfg.MaxCommentSize - ((c.Url.length : Int) + 1) >
            (Buffer.mk (c.Author.Name ++ ([0x0A] ++ specTextValues root.Children))).Len) := by
        simp only [Buffer.Len]
        omega
      simp only [if_neg h0, if_neg hnn]
  · rw [if_neg hlen, if_neg hlen]

theorem commentBuf_too_large (maxAlloc : Nat) (cfg : Config) (c : Commit) (root : Node)
    (h : cfg.MaxCommentSize > (maxAlloc : Int)) :
    commentBuf maxAlloc cfg c root = .error .ErrTooLarge := by
  have hg : ¬ cfg.MaxCommentSize < 0 := by omega
  have hl : (Buffer.mk []).Len + cfg.MaxCommentSize > (maxAlloc : Int) := by
    simp only [Buffer.Len, List.length_nil]
    omega
  simp only [commentBuf, Buffer.Grow, if_neg hg, if_pos hl]

theorem dispatchLinks_eq (comment url : GoString) (nodes : List Node) :
    dispatchLinks comment url nodes =
      (nodes.filter (fun v => v.typ = NodeType.LinkNode)).map
        (fun v => Task.mk v comment url v.Children) := by
  unfold dispatchLinks
  suffices hgen : ∀ acc : List Task,
      nodes.foldl (fun acc v =>
        if v.typ = NodeType.LinkNode then acc ++ [Task.mk v comment url v.Children] else acc) acc
      = acc ++ (nodes.filter (fun v => v.typ = NodeType.LinkNode)).map
        (fun v => Task.mk v comment url v.Children) by
    simpa using hgen []
  induction nodes with
  | nil => intro acc; simp
  | cons v rest ih =>
    intro acc
    rw [List.foldl_cons, ih]
    by_cases hv : v.typ = NodeType.LinkNode <;> simp [hv]

theorem processCommit_eq (maxAlloc : Nat) (cfg : Config) (parse : GoString → Except Error Node)
    (c : Commit) (root : Node) (hparse : parse c.Message = .ok root)
    (h : cfg.MaxCommentSize ≥ (c.Url.length : Int) + 1)
    (halloc : cfg.MaxCommentSize ≤ (maxAlloc : Int)) :
    processCommit maxAlloc cfg parse c = (.returned none,
      (root.Children.filter (fun v => v.typ = NodeType.LinkNode)).map
        (fun v => Task.mk v (specComment cfg c root) c.Url v.Children)) := by
  simp only [processCommit, hparse, commentBuf_eq maxAlloc cfg c root h halloc, Buffer.String,
    dispatchLinks_eq]

theorem processCommit_too_large (maxAlloc : Nat) (cfg : Config)
    (parse : GoString → Except Error Node) (c : Commit) (root : Node)
    (hparse : parse c.Message = .ok root) (h : cfg.MaxCommentSize > (maxAlloc : Int)) :
    processCommit maxAlloc cfg parse c = (.panicked .ErrTooLarge, []) := by
  simp only [processCommit, hparse, commentBuf_too_large maxAlloc cfg c root h]

theorem specComment_length (cfg : Config) (c : Commit) (root : Node)
    (h : cfg.MaxCommentSize ≥ (c.Url.length : Int) + 1) :
    ∃ body : GoString, specComment cfg c root = body ++ [0x0A] ++ c.Url
      ∧ (body.length : Int) ≤ cfg.MaxCommentSize - ((c.Url.length : Int) + 1) := by
  unfold specComment
  simp only
  split_ifs with hlen
  · refine ⟨_, rfl, ?_⟩
    rw [List.length_take]
    omega
  · refine ⟨_, rfl, ?_⟩
    omega

theorem commentBuf_grow_panic (maxAlloc : Nat) (cfg : Config) (c : Commit) (root : Node)
    (h : cfg.MaxCommentSize < 0) :
    commentBuf maxAlloc cfg c root = .error .growNegativeCount := by
  simp [commentBuf, Buffer.Grow, h]

theorem commentBuf_truncate_panic (maxAlloc : Nat) (cfg : Config) (c : Commit) (root : Node)
    (h0 : 0 ≤ cfg.MaxCommentSize) (h : cfg.MaxCommentSize < (c.Url.length : Int) + 1)
    (halloc : cfg.MaxCommentSize ≤ (maxAlloc : Int)) :
    commentBuf maxAlloc cfg c root = .error .truncationOutOfRange := by
  have hb := foldl_WriteString root.Children
    (((Buffer.mk []).WriteString c.Author.Name).WriteString [0x0A])
  unfold commentBuf
  simp only [Grow_empty_ok maxAlloc cfg.MaxCommentSize h0 halloc]
  generalize List.foldl
    (fun b v => if v.typ = NodeType.TextNode then b.WriteString v.Value else b)
    (((Buffer.mk []).WriteString c.Author.Name).WriteString [0x0A]) root.Children = b3 at hb ⊢
  have hlen : b3.Len > cfg.MaxCommentSize - ((c.Url.length : Int) + 1) := by
    unfold Buffer.Len
    omega
  have hne : ¬ cfg.MaxCommentSize - ((c.Url.length : Int) + 1) = 0 := by omega
  have hneg : cfg.MaxCommentSize - ((c.Url.length : Int) + 1) < 0 := by omega
  simp only [if_pos hlen, Buffer.Truncate, if_neg hne, hneg, true_or, if_true]

theorem checkCommits_of_blank (cs : List Commit)
    (h : ∃ c ∈ cs, specBlank c.Url = true ∨ specBlank c.Author.Name = true
      ∨ specBlank c.Message = true) :
    ∃ err, checkCommits cs = some err := by
  induction cs with
  | nil => simp at h
  | cons c rest ih =>
    by_cases hc : isValidStr c.Url = false ∨ isValidStr c.Author.Name = false
        ∨ isValidStr c.Message = false
    · exact ⟨_, by simp only [checkCommits, if_pos hc]; rfl⟩
    · simp only [checkCommits, if_neg hc]
      apply ih
      obtain ⟨c2, hmem, hb⟩ := h
      rcases List.mem_cons.mp hmem with rfl | hmem
      · exfalso
        apply hc
        simpa only [isValidStr_eq_false_iff] using hb
      · exact ⟨c2, hmem, hb⟩

/-! ## Theorems: processCommit -/

/-- C3, as stated, fails: maxCommentSize = 1 << 62 is at least len(url) + 1,
yet processCommit builds no comment for it: the Grow call panics with
ErrTooLarge. -/
theorem commentBuf_too_large_counterexample :
    exCfgHuge.MaxCommentSize ≥ (exCommitLong.Url.length : Int) + 1
      ∧ commentBuf exMaxAlloc exCfgHuge exCommitLong exRootLong = .error .ErrTooLarge
      ∧ ¬ ∃ cb : Buffer, commentBuf exMaxAlloc exCfgHuge exCommitLong exRootLong = .ok cb := by
  have hrun := commentBuf_too_large exMaxAlloc exCfgHuge exCommitLong exRootLong (by decide)
  refine ⟨by decide, hrun, ?_⟩
  rintro ⟨cb, hcb⟩
  rw [hrun] at hcb
  exact absurd hcb (by simp)

/-- C3, amended: when maxCommentSize >= len(url) + 1 and Grow can allocate
maxCommentSize bytes, the comment processCommit builds is a body followed by a
newline and the url, the body has at most maxCommentSize - (len(url) + 1)
bytes and the whole comment at most maxCommentSize bytes; when Grow cannot
allocate maxCommentSize bytes it panics with ErrTooLarge and no comment is
built. -/
theorem commentBuf_length_le (maxAlloc : Nat) (cfg : Config) (c : Commit) (root : Node)
    (h : cfg.MaxCommentSize ≥ (c.Url.length : Int) + 1) :
    (cfg.MaxCommentSize ≤ (maxAlloc : Int) →
        ∃ (cb : Buffer) (body : GoString), commentBuf maxAlloc cfg c root = .ok cb
          ∧ cb.String = body ++ [0x0A] ++ c.Url
          ∧ (body.length : Int) ≤ cfg.MaxCommentSize - ((c.Url.length : Int) + 1)
          ∧ (cb.String.length : Int) ≤ cfg.MaxCommentSize)
      ∧ (cfg.MaxCommentSize > (maxAlloc : Int) →
          commentBuf maxAlloc cfg c root = .error .ErrTooLarge) := by
  refine ⟨?_, commentBuf_too_large maxAlloc cfg c root⟩
  intro halloc
  obtain ⟨body, hb, hlen⟩ := specComment_length cfg c root h
  refine ⟨⟨specComment cfg c root⟩, body, commentBuf_eq maxAlloc cfg c root h halloc, hb, hlen, ?_⟩
  simp only [Buffer.String, hb, List.length_append, List.length_cons, List.length_nil]
  push_cast
  omega

/-- C3, amended, witness: maxCommentSize = 50 and a url of 20 bytes give a
body of at most 29 bytes and a comment of at most 50 bytes. -/
theorem commentBuf_length_le_witness :
    exCommitLong.Url.length = 20 ∧
    ∃ (cb : Buffer) (body : GoString),
      commentBuf exMaxAlloc (exCfg 50) exCommitLong exRootLong = .ok cb
      ∧ cb.String = body ++ [0x0A] ++ exCommitLong.Url
      ∧ (body.length : Int) ≤ 29
      ∧ (cb.String.length : Int) ≤ 50 :=
  ⟨by decide,
    (commentBuf_length_le exMaxAlloc (exCfg 50) exCommitLong exRootLong (by decide)).1
      (by decide)⟩

/-- C4, as stated, fails: with maxCommentSize = 1 << 62, which is at least
len(url) + 1, processCommit builds no comment and does not return: the Grow
call panics with ErrTooLarge and nothing is dispatched. -/
theorem processCommit_too_large_counterexample :
    exCfgHuge.MaxCommentSize ≥ (exCommitAnn.Url.length : Int) + 1
      ∧ commentBuf exMaxAlloc exCfgHuge exCommitAnn exRootAnn
          ≠ .ok ⟨specComment exCfgHuge exCommitAnn exRootAnn⟩
      ∧ processCommit exMaxAlloc exCfgHuge (fun _ => .ok exRootAnn) exCommitAnn
          = (.panicked .ErrTooLarge, []) := by
  refine ⟨by decide, ?_, ?_⟩
  · rw [commentBuf_too_large exMaxAlloc exCfgHuge exCommitAnn exRootAnn (by decide)]
    simp
  · exact processCommit_too_large exMaxAlloc exCfgHuge (fun _ => .ok exRootAnn) exCommitAnn
      exRootAnn rfl (by decide)

/-- C4, amended: when maxCommentSize >= len(url) + 1 and Grow can allocate
maxCommentSize bytes, the comment processCommit builds is T, newline, url,
with T the first maxBody bytes of B = author name, newline, text-node values
when B is longer than maxBody and B otherwise; processCommit returns nil and
every job it dispatches carries that comment. -/
theorem processCommit_comment_eq (maxAlloc : Nat) (cfg : Config)
    (parse : GoString → Except Error Node)
    (c : Commit) (root : Node) (hparse : parse c.Message = .ok root)
    (h : cfg.MaxCommentSize ≥ (c.Url.length : Int) + 1)
    (halloc : cfg.MaxCommentSize ≤ (maxAlloc : Int)) :
    commentBuf maxAlloc cfg c root = .ok ⟨specComment cfg c root⟩
      ∧ (processCommit maxAlloc cfg parse c).1 = .returned none
      ∧ ∀ t ∈ (processCommit maxAlloc cfg parse c).2, t.comment = specComment cfg c root := by
  refine ⟨commentBuf_eq maxAlloc cfg c root h halloc, ?_, ?_⟩
  · rw [processCommit_eq maxAlloc cfg parse c root hparse h halloc]
  · rw [processCommit_eq maxAlloc cfg parse c root hparse h halloc]
    intro t ht
    simp only [List.mem_map, List.mem_filter] at ht
    obtain ⟨v, -, rfl⟩ := ht
    rfl

/-- C4, amended, witness: author Ann, url http://x/1, maxCommentSize 200 and
the tree [Text "Fixed it ", Link "CARD-1" with child "Done"] give the comment
Ann, newline, Fixed it , newline, http://x/1. -/
theorem processCommit_comment_eq_witness :
    specComment (exCfg 200) exCommitAnn exRootAnn
        = str "Ann" ++ [0x0A] ++ str "Fixed it " ++ [0x0A] ++ str "http://x/1"
      ∧ (commentBuf exMaxAlloc (exCfg 200) exCommitAnn exRootAnn
          = .ok ⟨specComment (exCfg 200) exCommitAnn exRootAnn⟩
        ∧ (processCommit exMaxAlloc (exCfg 200) (fun _ => .ok exRootAnn) exCommitAnn).1
            = .returned none
        ∧ ∀ t ∈ (processCommit exMaxAlloc (exCfg 200) (fun _ => .ok exRootAnn) exCommitAnn).2,
            t.comment = specComment (exCfg 200) exCommitAnn exRootAnn) :=
  ⟨by decide,
    processCommit_comment_eq exMaxAlloc (exCfg 200) (fun _ => .ok exRootAnn) exCommitAnn
      exRootAnn rfl (by decide) (by decide)⟩

/-- C5, as stated, fails twice over.  For a tree whose only top-level node is
a link A with a link B nested beneath it, processCommit dispatches the one
Action for A, not one Action per Link node of the tree.  And with
maxCommentSize = 1 << 62, which is at least len(url) + 1, it dispatches no
Action for the top-level link CARD-1: the Grow call panics first. -/
theorem processCommit_nested_link_counterexample :
    ((processCommit exMaxAlloc (exCfg 200) (fun _ => .ok exRootNested) exCommitAnn).2.map
          actionOf
        = [⟨str "A", specComment (exCfg 200) exCommitAnn exRootNested, str "http://x/1",
            some (str "B")⟩]
      ∧ (processCommit exMaxAlloc (exCfg 200) (fun _ => .ok exRootNested) exCommitAnn).2.map
          actionOf
        ≠ (specLinksOfList exRootNested.Children).map (fun l =>
            Action.mk l.Value (specComment (exCfg 200) exCommitAnn exRootNested) exCommitAnn.Url
              (l.Children.head?.map Node.Value)))
      ∧ (exCfgHuge.MaxCommentSize ≥ (exCommitAnn.Url.length : Int) + 1
        ∧ (specLinksOfList exRootAnn.Children).length = 1
        ∧ processCommit exMaxAlloc exCfgHuge (fun _ => .ok exRootAnn) exCommitAnn
            = (.panicked .ErrTooLarge, [])) := by
  refine ⟨by decide, by decide, by decide, ?_⟩
  exact processCommit_too_large exMaxAlloc exCfgHuge (fun _ => .ok exRootAnn) exCommitAnn
    exRootAnn rfl (by decide)

/-- C5, amended: when maxCommentSize >= len(url) + 1 and Grow can allocate
maxCommentSize bytes, processCommit returns nil and dispatches, in order,
exactly one job per Link node among the direct children of the parsed root:
its Action has targetRef the value of the link, sourceUrl the url of the
commit and moveToName the value of the first child of the link, absent when
the link has no child; with no Link node among the children of the root
nothing is dispatched. -/
theorem processCommit_actions (maxAlloc : Nat) (cfg : Config)
    (parse : GoString → Except Error Node)
    (c : Commit) (root : Node) (hparse : parse c.Message = .ok root)
    (h : cfg.MaxCommentSize ≥ (c.Url.length : Int) + 1)
    (halloc : cfg.MaxCommentSize ≤ (maxAlloc : Int)) :
    (processCommit maxAlloc cfg parse c).1 = .returned none
      ∧ (processCommit maxAlloc cfg parse c).2
          = (root.Children.filter (fun v => v.typ = NodeType.LinkNode)).map
              (fun v => Task.mk v (specComment cfg c root) c.Url v.Children)
      ∧ (processCommit maxAlloc cfg parse c).2.map actionOf
          = (root.Children.filter (fun v => v.typ = NodeType.LinkNode)).map
              (fun l => Action.mk l.Value (specComment cfg c root) c.Url
                (l.Children.head?.map Node.Value))
      ∧ ((∀ v ∈ root.Children, v.typ ≠ NodeType.LinkNode) →
          (processCommit maxAlloc cfg parse c).2 = []) := by
  rw [processCommit_eq maxAlloc cfg parse c root hparse h halloc]
  refine ⟨rfl, rfl, ?_, ?_⟩
  · simp only [List.map_map]
    rfl
  · intro hno
    have : root.Children.filter (fun v => v.typ = NodeType.LinkNode) = [] := by
      rw [List.filter_eq_nil_iff]
      intro v hv
      simpa using hno v hv
    simp [this]

/-- C5, amended, witness: the end-to-end tree yields the one Action with
targetRef CARD-1, sourceUrl http://x/1 and moveToName Done. -/
theorem processCommit_actions_witness :
    (processCommit exMaxAlloc (exCfg 200) (fun _ => .ok exRootAnn) exCommitAnn).2.map actionOf
      = [⟨str "CARD-1", str "Ann" ++ [0x0A] ++ str "Fixed it " ++ [0x0A] ++ str "http://x/1",
          str "http://x/1", some (str "Done")⟩] :=
  ((processCommit_actions exMaxAlloc (exCfg 200) (fun _ => .ok exRootAnn) exCommitAnn exRootAnn
    rfl (by decide) (by decide)).2.2.1).trans (by decide)

/-- C10, as stated, fails: with maxCommentSize = -1 processCommit panics in
Grow, so Truncate is not reached (with a negative length or any other)
although maxCommentSize < len(url) + 1. -/
theorem commentBuf_negative_size_counterexample :
    (exCfg (-1)).MaxCommentSize < (exCommitAnn.Url.length : Int) + 1
      ∧ commentBuf exMaxAlloc (exCfg (-1)) exCommitAnn exRootAnn ≠ .error .truncationOutOfRange
      ∧ commentBuf exMaxAlloc (exCfg (-1)) exCommitAnn exRootAnn = .error .growNegativeCount := by
  refine ⟨by decide, ?_, ?_⟩
  · rw [commentBuf_grow_panic _ _ _ _ (by decide)]
    simp
  · exact commentBuf_grow_panic _ _ _ _ (by decide)

/-- C10, amended: for a commit whose message parses (its url, a string in
memory, no longer than the largest allocation) and maxCommentSize >= 0,
Truncate is called with a length out of range exactly when maxCommentSize <
len(url) + 1, the length then being negative, and processCommit panics before
it dispatches any job; for maxCommentSize < 0 processCommit panics in the
Grow call before Truncate is reached, and again dispatches nothing. -/
theorem processCommit_truncate_defined (maxAlloc : Nat) (cfg : Config)
    (parse : GoString → Except Error Node)
    (c : Commit) (root : Node) (hparse : parse c.Message = .ok root)
    (hurl : c.Url.length ≤ maxAlloc) :
    (0 ≤ cfg.MaxCommentSize →
        (commentBuf maxAlloc cfg c root ≠ .error .truncationOutOfRange
          ↔ cfg.MaxCommentSize ≥ (c.Url.length : Int) + 1))
      ∧ (0 ≤ cfg.MaxCommentSize → cfg.MaxCommentSize < (c.Url.length : Int) + 1 →
          cfg.MaxCommentSize - ((c.Url.length : Int) + 1) < 0
            ∧ processCommit maxAlloc cfg parse c = (.panicked .truncationOutOfRange, []))
      ∧ (cfg.MaxCommentSize < 0 →
          processCommit maxAlloc cfg parse c = (.panicked .growNegativeCount, [])) := by
  refine ⟨?_, ?_, ?_⟩
  · intro h0
    constructor
    · intro hne
      by_contra hlt
      exact hne (commentBuf_truncate_panic maxAlloc cfg c root h0 (by omega) (by omega))
    · intro hge
      by_cases halloc : cfg.MaxCommentSize ≤ (maxAlloc : Int)
      · rw [commentBuf_eq maxAlloc cfg c root hge halloc]
        simp
      · rw [commentBuf_too_large maxAlloc cfg c root (by omega)]
        simp
  · intro h0 hlt
    refine ⟨by omega, ?_⟩
    simp only [processCommit, hparse,
      commentBuf_truncate_panic maxAlloc cfg c root h0 hlt (by omega)]
  · intro hneg
    simp only [processCommit, hparse, commentBuf_grow_panic maxAlloc cfg c root hneg]

/-- C10, amended, witness: maxCommentSize = 5 with the 10-byte url
http://x/1 panics in Truncate, maxCommentSize = 200 does not. -/
theorem processCommit_truncate_defined_witness :
    processCommit exMaxAlloc (exCfg 5) (fun _ => .ok exRootAnn) exCommitAnn
        = (.panicked .truncationOutOfRange, [])
      ∧ commentBuf exMaxAlloc (exCfg 200) exCommitAnn exRootAnn
          ≠ .error .truncationOutOfRange :=
  ⟨((processCommit_truncate_defined exMaxAlloc (exCfg 5) (fun _ => .ok exRootAnn) exCommitAnn
      exRootAnn rfl (by decide)).2.1 (by decide) (by decide)).2,
    ((processCommit_truncate_defined exMaxAlloc (exCfg 200) (fun _ => .ok exRootAnn)
      exCommitAnn exRootAnn rfl (by decide)).1 (by decide)).mpr (by decide)⟩

/-! ## Theorems: processGithubPayload -/

/-- C2: when the decoded payload has a commit, at any position, with a blank
url, author name or message, processGithubPayload returns a non-nil error and
nothing happens: processCommit is called for no commit and no job is
dispatched. -/
theorem processGithubPayload_blank_field (maxAlloc : Nat) (cfg : Config)
    (unmarshal : List Byte → Except Error Payload) (parse : GoString → Except Error Node)
    (g : GithubPayload) (p : Payload) (hdec : unmarshal g.Payload = .ok p)
    (hbad : ∃ c ∈ p.Commits, specBlank c.Url = true ∨ specBlank c.Author.Name = true
      ∨ specBlank c.Message = true) :
    (∃ err, (processGithubPayload maxAlloc cfg unmarshal parse g).1 = .returned (some err))
      ∧ (processGithubPayload maxAlloc cfg unmarshal parse g).2 = [] := by
  obtain ⟨err, herr⟩ := checkCommits_of_blank p.Commits hbad
  have hrun : processGithubPayload maxAlloc cfg unmarshal parse g
      = (.returned (some err), []) := by
    simp only [processGithubPayload, hdec, herr]
  rw [hrun]
  exact ⟨⟨err, rfl⟩, rfl⟩

/-- C2, witness: a batch of three commits of which the second has an empty
author name yields an error and no event at all. -/
theorem processGithubPayload_blank_field_witness :
    (∃ c ∈ exBatch.Commits, specBlank c.Url = true ∨ specBlank c.Author.Name = true
        ∨ specBlank c.Message = true)
      ∧ (∃ err, (processGithubPayload exMaxAlloc (exCfg 200) (fun _ => .ok exBatch)
          (fun _ => .ok exRootAnn) ⟨[]⟩).1 = .returned (some err))
      ∧ (processGithubPayload exMaxAlloc (exCfg 200) (fun _ => .ok exBatch)
          (fun _ => .ok exRootAnn) ⟨[]⟩).2 = [] :=
  ⟨⟨exCommit (str "two [B](Done)") (str "http://x/2") [], by decide, by decide⟩,
    processGithubPayload_blank_field exMaxAlloc (exCfg 200) (fun _ => .ok exBatch)
      (fun _ => .ok exRootAnn) ⟨[]⟩ exBatch rfl
      ⟨exCommit (str "two [B](Done)") (str "http://x/2") [], by decide, by decide⟩⟩

/-! ## Lemmas: actionCard -/

theorem actionCard_of_absent (w : World) (store : Store) (link : Node) (comment url : GoString)
    (children : List Node) (hstore : store (link.Value ++ url) = none) :
    ∃ rest, (actionCard w store link comment url children).calls
        = Call.CommentPost (getCardId link.Value) comment :: rest
      ∧ specCommentPosts rest = 0 := by
  simp only [actionCard, datastoreGet, hstore]
  simp only [ne_eq, not_true_eq_false, and_false, if_false, List.length_nil, gt_iff_lt,
    lt_self_iff_false, reduceCtorEq, not_false_eq_true]
  repeat' split
  all_goals exact ⟨_, rfl, by simp [specCommentPosts]⟩

theorem actionCard_of_done (w : World) (store : Store) (link : Node) (comment url : GoString)
    (children : List Node) (ent : TrelloComment)
    (hstore : store (link.Value ++ url) = some (.entity ent)) (hres : ent.Result ≠ []) :
    actionCard w store link comment url children = ⟨none, store, []⟩ := by
  have hpos : ent.Result.length > 0 := List.length_pos.mpr hres
  simp only [actionCard, datastoreGet, hstore]
  simp only [ne_eq, not_true_eq_false, false_and, if_false, if_pos hpos]

theorem actionCard_store_of_ok (w : World) (store : Store) (link : Node)
    (comment url : GoString) (children : List Node)
    (hstore : store (link.Value ++ url) = none)
    (hpost : w.CommentPost (getCardId link.Value) comment = none)
    (hput : w.datastorePut (link.Value ++ url) ⟨str "OK"⟩ = none) :
    (actionCard w store link comment url children).store
      = storePut store (link.Value ++ url) ⟨str "OK"⟩ := by
  simp only [actionCard, datastoreGet, hstore, hpost, hput]
  simp only [ne_eq, not_true_eq_false, and_false, if_false, List.length_nil, gt_iff_lt,
    lt_self_iff_false, reduceCtorEq, not_false_eq_true]
  repeat' split
  all_goals rfl

theorem actionCard_err_of_posted (w : World) (store : Store) (link : Node)
    (comment url : GoString) (children : List Node)
    (hcalled : Call.CommentPost (getCardId link.Value) comment
      ∈ (actionCard w store link comment url children).calls)
    (hpost : w.CommentPost (getCardId link.Value) comment = none) :
    (actionCard w store link comment url children).err = none
      ∧ specCommentPosts (actionCard w store link comment url children).calls = 1 := by
  revert hcalled
  simp only [actionCard, hpost]
  repeat' split
  all_goals simp [specCommentPosts]

theorem actionCard_no_match (w : World) (store : Store) (link : Node)
    (comment url : GoString) (moveToNode : Node) (rest : List Node)
    (hno : ∀ card board lists, w.CardGet (getCardId link.Value) = .ok card →
      w.BoardGet card.IdBoard = .ok board → w.BoardListsGet board.Id = .ok lists →
      ∀ l ∈ lists, l.Name ≠ moveToNode.Value) :
    specMoves (actionCard w store link comment url (moveToNode :: rest)).calls = 0 := by
  simp only [actionCard]
  split
  · simp [specMoves]
  · split
    · simp [specMoves]
    · split
      · simp [specMoves]
      · split
        · simp [specMoves]
        · split
          · simp [specMoves]
          · rename_i card hcard
            split
            · simp [specMoves]
            · rename_i board hboard
              split
              · simp [specMoves]
              · rename_i lists hlists
                have hfind : lists.find? (fun l => l.Name = moveToNode.Value) = none := by
                  rw [List.find?_eq_none]
                  intro l hl
                  simpa using hno card board lists hcard hboard hlists l hl
                simp [hfind, specMoves]

theorem Split_ne_nil (sep : Byte) : ∀ s : GoString, Split s sep ≠ []
  | [] => by simp [Split]
  | c :: cs => by
    by_cases h : c = sep
    · simp [Split, h]
    · cases hs : Split cs sep <;> simp [Split, h, hs]

theorem Split_of_not_mem (sep : Byte) : ∀ s : GoString, sep ∉ s → Split s sep = [s]
  | [], _ => by simp [Split]
  | c :: cs, h => by
    have hc : ¬ c = sep := fun e => h (by simp [e])
    have ih := Split_of_not_mem sep cs (fun hm => h (List.mem_cons_of_mem _ hm))
    simp [Split, hc, ih]

theorem Split_append (sep : Byte) (b : GoString) : ∀ a : GoString,
    Split (a ++ sep :: b) sep = Split a sep ++ Split b sep
  | [] => by simp [Split]
  | c :: cs => by
    have ih := Split_append sep b cs
    by_cases h : c = sep
    · simp [Split, h, ih]
    · cases hs : Split cs sep with
      | nil => exact absurd hs (Split_ne_nil sep cs)
      | cons p ps =>
        rw [hs] at ih
        have ih2 : Split (cs.append (sep :: b)) sep = p :: ps ++ Split b sep := ih
        simp only [List.cons_append, Split, h, if_false, ih2, hs]

theorem getCardId_of_not_mem (v : GoString) (h : (0x2F : Byte) ∉ v) : getCardId v = [] := by
  simp [getCardId, Split_of_not_mem _ v h]

theorem getCardId_append (a b : GoString) (h : (0x2F : Byte) ∉ b) :
    getCardId (a ++ 0x2F :: b) = b := by
  have hne := Split_ne_nil 0x2F a
  have hlen : 1 ≤ (Split a 0x2F).length := List.length_pos.mpr hne
  simp only [getCardId, Split_append, Split_of_not_mem _ b h, List.length_append,
    List.length_singleton]
  have hidx : ¬ ((((Split a 0x2F).length + 1 : Nat) : Int) - 1 < 1) := by omega
  rw [if_neg hidx]
  have : ((((Split a 0x2F).length + 1 : Nat) : Int) - 1).toNat = (Split a 0x2F).length := by omega
  rw [this]
  simp [List.getD_eq_getElem?_getD]

/-! ## Theorems: actionCard -/

/-- C1: with no record under the key and the comment post and the record
write of the first run succeeding, a second run on the store the first run
leaves finds the record, returns nil and makes no Trello call; over both runs
the comment-post API is called exactly once. -/
theorem actionCard_idempotent (w1 w2 : World) (store : Store) (link : Node)
    (comment url : GoString) (children : List Node)
    (hstore : store (link.Value ++ url) = none)
    (hpost : w1.CommentPost (getCardId link.Value) comment = none)
    (hput : w1.datastorePut (link.Value ++ url) ⟨str "OK"⟩ = none) :
    (actionCard w1 store link comment url children).store (link.Value ++ url)
        = some (.entity ⟨str "OK"⟩)
      ∧ (actionCard w2 (actionCard w1 store link comment url children).store
          link comment url children).err = none
      ∧ (actionCard w2 (actionCard w1 store link comment url children).store
          link comment url children).calls = []
      ∧ specCommentPosts ((actionCard w1 store link comment url children).calls
          ++ (actionCard w2 (actionCard w1 store link comment url children).store
            link comment url children).calls) = 1 := by
  have hs := actionCard_store_of_ok w1 store link comment url children hstore hpost hput
  have hrec : (actionCard w1 store link comment url children).store (link.Value ++ url)
      = some (.entity ⟨str "OK"⟩) := by
    rw [hs]; simp [storePut]
  have h2 := actionCard_of_done w2 _ link comment url children ⟨str "OK"⟩ hrec (by decide)
  obtain ⟨rest, hcalls, hrest⟩ := actionCard_of_absent w1 store link comment url children hstore
  refine ⟨hrec, ?_, ?_, ?_⟩
  · rw [h2]
  · rw [h2]
  · rw [h2, hcalls]
    simp only [List.append_nil]
    simp only [specCommentPosts] at hrest ⊢
    rw [List.countP_cons_of_pos _ _ (by rfl), hrest]

/-- C1, witness: the end-to-end action run twice on an empty store. -/
theorem actionCard_idempotent_witness :
    (actionCard exWorldOk exStoreEmpty exLinkCard1 exCommentAnn (str "http://x/1")
          exLinkCard1.Children).store (exLinkCard1.Value ++ str "http://x/1")
        = some (.entity ⟨str "OK"⟩)
      ∧ (actionCard exWorldOk (actionCard exWorldOk exStoreEmpty exLinkCard1 exCommentAnn
          (str "http://x/1") exLinkCard1.Children).store
          exLinkCard1 exCommentAnn (str "http://x/1") exLinkCard1.Children).err = none
      ∧ (actionCard exWorldOk (actionCard exWorldOk exStoreEmpty exLinkCard1 exCommentAnn
          (str "http://x/1") exLinkCard1.Children).store
          exLinkCard1 exCommentAnn (str "http://x/1") exLinkCard1.Children).calls = []
      ∧ specCommentPosts ((actionCard exWorldOk exStoreEmpty exLinkCard1 exCommentAnn
          (str "http://x/1") exLinkCard1.Children).calls
          ++ (actionCard exWorldOk (actionCard exWorldOk exStoreEmpty exLinkCard1 exCommentAnn
            (str "http://x/1") exLinkCard1.Children).store
            exLinkCard1 exCommentAnn (str "http://x/1") exLinkCard1.Children).calls) = 1 :=
  actionCard_idempotent exWorldOk exWorldOk exStoreEmpty exLinkCard1 exCommentAnn
    (str "http://x/1") exLinkCard1.Children rfl rfl rfl

/-- C6: with no record under the key, when the comment post fails actionCard
returns that error, leaves the store as it was and makes no other Trello call;
a second run on that store, in any world, calls comment-post again. -/
theorem actionCard_post_fails (w : World) (store : Store) (link : Node)
    (comment url : GoString) (children : List Node) (e : Error)
    (hstore : store (link.Value ++ url) = none)
    (hpost : w.CommentPost (getCardId link.Value) comment = some e) :
    (actionCard w store link comment url children).err = some e
      ∧ (actionCard w store link comment url children).store = store
      ∧ (actionCard w store link comment url children).calls
          = [Call.CommentPost (getCardId link.Value) comment]
      ∧ ∀ w2 : World, Call.CommentPost (getCardId link.Value) comment
          ∈ (actionCard w2 (actionCard w store link comment url children).store
              link comment url children).calls := by
  have hrun : actionCard w store link comment url children
      = ⟨some e, store, [Call.CommentPost (getCardId link.Value) comment]⟩ := by
    simp only [actionCard, datastoreGet, hstore, hpost]
    simp
  rw [hrun]
  refine ⟨rfl, rfl, rfl, ?_⟩
  intro w2
  obtain ⟨rest, hcalls, -⟩ := actionCard_of_absent w2 store link comment url children hstore
  simp only [hcalls, List.mem_cons, true_or]

/-- C6, witness: the end-to-end action in a world where the comment post
fails. -/
theorem actionCard_post_fails_witness :
    (actionCard exWorldPostFails exStoreEmpty exLinkCard1 exCommentAnn (str "http://x/1")
        exLinkCard1.Children).err = some (.external 1)
      ∧ (actionCard exWorldPostFails exStoreEmpty exLinkCard1 exCommentAnn (str "http://x/1")
        exLinkCard1.Children).store = exStoreEmpty
      ∧ (actionCard exWorldPostFails exStoreEmpty exLinkCard1 exCommentAnn (str "http://x/1")
        exLinkCard1.Children).calls = [Call.CommentPost (getCardId exLinkCard1.Value) exCommentAnn]
      ∧ ∀ w2 : World, Call.CommentPost (getCardId exLinkCard1.Value) exCommentAnn
          ∈ (actionCard w2 (actionCard exWorldPostFails exStoreEmpty exLinkCard1 exCommentAnn
              (str "http://x/1") exLinkCard1.Children).store
              exLinkCard1 exCommentAnn (str "http://x/1") exLinkCard1.Children).calls :=
  actionCard_post_fails exWorldPostFails exStoreEmpty exLinkCard1 exCommentAnn
    (str "http://x/1") exLinkCard1.Children (.external 1) rfl rfl

/-- C7: for an action with a list to move to whose comment post was made and
succeeded, actionCard returns nil and has posted the comment exactly once,
whatever the card fetch, board fetch, lists fetch and move call answer; and
when no list of the board has a name equal to the moveToName, no move call is
made. -/
theorem actionCard_move_best_effort (w : World) (store : Store) (link : Node)
    (comment url : GoString) (moveToNode : Node) (rest : List Node)
    (hcalled : Call.CommentPost (getCardId link.Value) comment
      ∈ (actionCard w store link comment url (moveToNode :: rest)).calls)
    (hpost : w.CommentPost (getCardId link.Value) comment = none) :
    (actionCard w store link comment url (moveToNode :: rest)).err = none
      ∧ specCommentPosts (actionCard w store link comment url (moveToNode :: rest)).calls = 1
      ∧ ((∀ card board lists, w.CardGet (getCardId link.Value) = .ok card →
            w.BoardGet card.IdBoard = .ok board → w.BoardListsGet board.Id = .ok lists →
            ∀ l ∈ lists, l.Name ≠ moveToNode.Value) →
          specMoves (actionCard w store link comment url (moveToNode :: rest)).calls = 0) :=
  ⟨(actionCard_err_of_posted w store link comment url _ hcalled hpost).1,
    (actionCard_err_of_posted w store link comment url _ hcalled hpost).2,
    actionCard_no_match w store link comment url moveToNode rest⟩

/-- C7, witness: in a world where the card fetch fails the action still
returns nil with the comment posted once; and with a moveToName that names no
list of the board no move call is made. -/
theorem actionCard_move_best_effort_witness :
    ((actionCard exWorldMoveFails exStoreEmpty exLinkCard1 exCommentAnn (str "http://x/1")
          [.mk .TextNode (str "Done") []]).err = none
      ∧ specCommentPosts (actionCard exWorldMoveFails exStoreEmpty exLinkCard1 exCommentAnn
          (str "http://x/1") [.mk .TextNode (str "Done") []]).calls = 1)
      ∧ specMoves (actionCard exWorldOk exStoreEmpty exLinkCard1 exCommentAnn
          (str "http://x/1") [.mk .TextNode (str "Nowhere") []]).calls = 0 :=
  ⟨⟨(actionCard_move_best_effort exWorldMoveFails exStoreEmpty exLinkCard1 exCommentAnn
        (str "http://x/1") (.mk .TextNode (str "Done") []) [] (by decide) rfl).1,
      (actionCard_move_best_effort exWorldMoveFails exStoreEmpty exLinkCard1 exCommentAnn
        (str "http://x/1") (.mk .TextNode (str "Done") []) [] (by decide) rfl).2.1⟩,
    (actionCard_move_best_effort exWorldOk exStoreEmpty exLinkCard1 exCommentAnn
        (str "http://x/1") (.mk .TextNode (str "Nowhere") []) [] (by decide) rfl).2.2
      (by
        intro card board lists _ _ hl l hmem
        have hlists : lists = [⟨str "list-1", str "Todo"⟩, ⟨str "list-2", str "Done"⟩] := by
          simp only [exWorldOk, Except.ok.injEq] at hl
          exact hl.symm
        subst hlists
        simp only [List.mem_cons, List.mem_singleton, List.not_mem_nil, or_false] at hmem
        rcases hmem with rfl | rfl <;> decide)⟩

/-- C8, as stated, fails: the action with targetRef CARD-1 posts its comment
with the empty card identifier, not to card CARD-1. -/
theorem actionCard_card_id_counterexample :
    (actionCard exWorldOk exStoreEmpty exLinkCard1 exCommentAnn (str "http://x/1")
        exLinkCard1.Children).calls.head? = some (Call.CommentPost [] exCommentAnn)
      ∧ Call.CommentPost (str "CARD-1") exCommentAnn
          ∉ (actionCard exWorldOk exStoreEmpty exLinkCard1 exCommentAnn (str "http://x/1")
              exLinkCard1.Children).calls := by
  decide

/-- C8, amended: with no record under the key, actionCard calls comment-post
once, first of all its Trello calls, with the text equal to the comment of the
action and the card identifier getCardId of the link value: the part after the
last "/" of the value, and the empty string when the value has no "/". -/
theorem actionCard_comment_post (w : World) (store : Store) (link : Node)
    (comment url : GoString) (children : List Node)
    (hstore : store (link.Value ++ url) = none) :
    (∃ rest, (actionCard w store link comment url children).calls
        = Call.CommentPost (getCardId link.Value) comment :: rest
      ∧ specCommentPosts rest = 0)
      ∧ ((0x2F : Byte) ∉ link.Value → getCardId link.Value = [])
      ∧ (∀ a b : GoString, link.Value = a ++ 0x2F :: b → (0x2F : Byte) ∉ b →
          getCardId link.Value = b) := by
  refine ⟨actionCard_of_absent w store link comment url children hstore,
    getCardId_of_not_mem link.Value, ?_⟩
  intro a b hv hb
  rw [hv]
  exact getCardId_append a b hb

/-- C8, amended, witness: a link to https://trello.com/c/CARD-1 posts the
comment to card CARD-1. -/
theorem actionCard_comment_post_witness :
    ∃ rest, (actionCard exWorldOk exStoreEmpty
        (.mk .LinkNode (str "https://trello.com/c/CARD-1") []) exCommentAnn (str "http://x/1")
        []).calls = Call.CommentPost (str "CARD-1") exCommentAnn :: rest
      ∧ specCommentPosts rest = 0 :=
  (actionCard_comment_post exWorldOk exStoreEmpty
    (.mk .LinkNode (str "https://trello.com/c/CARD-1") []) exCommentAnn (str "http://x/1") []
    rfl).1

end Gtrello
